import Mathlib

/-!
Shallow embedding of the `in-vite` crate's manifest-resolution core
(`src/manifest.rs`, `src/resource.rs`, `src/vite.rs`).

Modelling notes:
* Rust's `HashMap<String, Chunk>` is only ever used through `.get`, so the
  manifest is modelled as an association list with first-match lookup.
* Rust `&str` comparison is byte-wise; on valid UTF-8 this coincides with
  the code-point lexicographic order of Lean's `String`, which is what we use.
* `Manifest::resolve_imports` recurses without an occurs check, so the Rust
  code diverges on cyclic import graphs.  The embedding makes the recursion
  depth explicit with a fuel parameter; `none` marks fuel exhaustion
  (i.e. the bounded recursion did not complete), `some` is the value the
  Rust code returns.
* `Vec::sort` with the derived `Ord` is modelled by `List.insertionSort`
  over the same total order; elements comparing equal are identical values,
  so any stable (indeed any correct) sort yields the same list.
-/

/-- Lexicographic comparison of character lists by code point.  This models
Rust's byte-wise `&str` ordering: on valid UTF-8, byte-wise lexicographic
order coincides with code-point lexicographic order. -/
def charListLe : List Char → List Char → Bool
  | [], _ => true
  | _ :: _, [] => false
  | a :: as, b :: bs =>
    if a.toNat < b.toNat then true
    else if b.toNat < a.toNat then false
    else charListLe as bs

/-- Model of Rust's `&str` total order (byte-wise lexicographic). -/
def strLe (a b : String) : Bool :=
  charListLe a.data b.data

theorem charListLe_total : ∀ a b : List Char, charListLe a b = true ∨ charListLe b a = true := by
  intro a
  induction a with
  | nil => intro b; exact Or.inl rfl
  | cons x xs ih =>
    intro b
    cases b with
    | nil => exact Or.inr rfl
    | cons y ys =>
      simp only [charListLe]
      rcases Nat.lt_trichotomy x.toNat y.toNat with h | h | h
      · left; simp [h]
      · have h1 : ¬ x.toNat < y.toNat := by omega
        have h2 : ¬ y.toNat < x.toNat := by omega
        rcases ih ys with hc | hc
        · left; simp [h1, h2, hc]
        · right; simp [h1, h2, hc]
      · right; simp [h]

theorem charListLe_trans : ∀ a b c : List Char,
    charListLe a b = true → charListLe b c = true → charListLe a c = true := by
  intro a
  induction a with
  | nil => intro b c _ _; rfl
  | cons x xs ih =>
    intro b c hab hbc
    cases b with
    | nil => simp [charListLe] at hab
    | cons y ys =>
      cases c with
      | nil => simp [charListLe] at hbc
      | cons z zs =>
        simp only [charListLe] at hab hbc ⊢
        by_cases hxy : x.toNat < y.toNat
        · by_cases hyz : y.toNat < z.toNat
          · have : x.toNat < z.toNat := by omega
            simp [this]
          · simp [hxy] at hab
            by_cases hzy : z.toNat < y.toNat
            · simp [hyz, hzy] at hbc
            · have hyz' : y.toNat = z.toNat := by omega
              have : x.toNat < z.toNat := by omega
              simp [this]
        · by_cases hyx : y.toNat < x.toNat
          · simp [hxy, hyx] at hab
          · have hxy' : x.toNat = y.toNat := by omega
            by_cases hyz : y.toNat < z.toNat
            · have : x.toNat < z.toNat := by omega
              simp [this]
            · by_cases hzy : z.toNat < y.toNat
              · simp [hyz, hzy] at hbc
              · have hyz' : y.toNat = z.toNat := by omega
                have h1 : ¬ x.toNat < z.toNat := by omega
                have h2 : ¬ z.toNat < x.toNat := by omega
                simp only [hxy, hyx, if_neg, ite_false] at hab
                simp only [hyz, hzy, if_neg, ite_false] at hbc
                simp [h1, h2, ih ys zs (by simpa using hab) (by simpa using hbc)]

/-- Model of `enum Resource<'a>` from `src/resource.rs`. -/
inductive Resource where
  | Stylesheet (uri : String)
  | Module (uri : String)
  | PreloadModule (uri : String)
deriving DecidableEq, Repr

namespace Resource

/-- Variant discriminant, in declaration order, as used by Rust's derived `Ord`. -/
def rank : Resource → Nat
  | Stylesheet _ => 0
  | Module _ => 1
  | PreloadModule _ => 2

/-- The wrapped URI string. -/
def uri : Resource → String
  | Stylesheet u => u
  | Module u => u
  | PreloadModule u => u

/-- The total order on resources from the derived `Ord` in `src/resource.rs`:
variant order `Stylesheet < Module < PreloadModule` first, then the URI
string lexicographically. -/
def le (a b : Resource) : Prop :=
  a.rank < b.rank ∨ (a.rank = b.rank ∧ strLe a.uri b.uri = true)

instance : DecidableRel le := by
  intro a b
  unfold le
  infer_instance

instance : IsTrans Resource le := by
  constructor
  intro a b c hab hbc
  rcases hab with h1 | ⟨h1, h1u⟩ <;> rcases hbc with h2 | ⟨h2, h2u⟩
  · exact Or.inl (lt_trans h1 h2)
  · exact Or.inl (h2 ▸ h1)
  · exact Or.inl (h1 ▸ h2)
  · exact Or.inr ⟨h1.trans h2, charListLe_trans _ _ _ h1u h2u⟩

instance : IsTotal Resource le := by
  constructor
  intro a b
  rcases Nat.lt_trichotomy a.rank b.rank with h | h | h
  · exact Or.inl (Or.inl h)
  · rcases charListLe_total a.uri.data b.uri.data with hu | hu
    · exact Or.inl (Or.inr ⟨h, hu⟩)
    · exact Or.inr (Or.inr ⟨h.symm, hu⟩)
  · exact Or.inr (Or.inl h)

/-- Model of `Resource::to_html` from `src/resource.rs`. -/
def to_html : Resource → String
  | Stylesheet u => "<link rel=\"stylesheet\" href=\"" ++ u ++ "\" />"
  | Module u => "<script type=\"module\" src=\"" ++ u ++ "\"></script>"
  | PreloadModule u => "<link rel=\"modulepreload\" href=\"" ++ u ++ "\" />"

end Resource

/-- Model of `struct Chunk` from `src/manifest.rs` (deserialized fields). -/
structure Chunk where
  src : Option String := none
  file : String
  css : List String := []
  assets : List String := []
  is_entry : Bool := false
  is_dynamic_entry : Bool := false
  imports : List String := []
  dynamic_imports : List String := []
deriving DecidableEq, Repr

/-- Model of `struct Manifest(HashMap<String, Chunk>)`: an association list,
used only through key lookup. -/
def Manifest : Type := List (String × Chunk)

/-- Model of `HashMap::get` on the manifest (first matching key wins;
a deserialized `HashMap` has unique keys). -/
def Manifest.get : Manifest → String → Option Chunk
  | [], _ => none
  | (k, c) :: rest, key => if k = key then some c else Manifest.get rest key

/-- Model of Rust's `str::ends_with` with a string pattern: on valid UTF-8,
byte-wise suffix testing coincides with character-wise suffix testing. -/
def strEndsWith (s pat : String) : Bool :=
  pat.data.isSuffixOf s.data

/-- The extension test on the manifest key used by `Manifest::resolve_imports`
for emitting a `Module` resource: `.js`, `.jsx`, `.ts` or `.tsx`. -/
def jsLikeKey (key : String) : Bool :=
  strEndsWith key ".js" || strEndsWith key ".jsx" || strEndsWith key ".ts" ||
    strEndsWith key ".tsx"

/-- The resources `Manifest::resolve_imports` pushes for the current chunk
itself, after its `css` and `imports` have been processed. -/
def selfResources (key : String) (chunk : Chunk) : List Resource :=
  if !chunk.is_entry then [Resource.PreloadModule chunk.file]
  else if strEndsWith key ".css" then [Resource.Stylesheet chunk.file]
  else if jsLikeKey key then [Resource.Module chunk.file]
  else []

/-- The `for import in chunk.imports` loop of `Manifest::resolve_imports`:
looks each import up in the manifest, silently skipping missing keys, and
hands the found chunks, in order, to `recurse` (the recursive call at the
next depth). -/
def resolveImportList (m : Manifest) (recurse : String → Chunk → Option (List Resource)) :
    List String → Option (List Resource)
  | [] => some []
  | i :: rest =>
    match m.get i with
    | none => resolveImportList m recurse rest
    | some c =>
      match recurse i c with
      | none => none
      | some rs =>
        match resolveImportList m recurse rest with
        | none => none
        | some rest' => some (rs ++ rest')

/-- Model of `Manifest::resolve_imports` from `src/manifest.rs`, fuel-indexed.
`some l` means the recursion completes within the given depth and appends
exactly `l`; `none` means the depth bound was hit (the Rust code recurses
unboundedly, diverging on cyclic import graphs). -/
def resolveImportsF (m : Manifest) : Nat → String → Chunk → Option (List Resource)
  | 0, _, _ => none
  | fuel + 1, key, chunk =>
    match resolveImportList m (fun i c => resolveImportsF m fuel i c) chunk.imports with
    | none => none
    | some imported =>
      some (chunk.css.map Resource.Stylesheet ++ imported ++ selfResources key chunk)

/-- The final `resources.sort()` of `Manifest::resolve_resources`, using the
derived total order on `Resource`. -/
def sortResources (l : List Resource) : List Resource :=
  l.insertionSort Resource.le

/-- Model of `Manifest::resolve_resources` from `src/manifest.rs`:
unknown entrypoints and non-entry chunks yield the empty list; otherwise the
collected resources of the depth-first walk, sorted. -/
def resolveResourcesF (m : Manifest) (fuel : Nat) (entrypoint : String) :
    Option (List Resource) :=
  match m.get entrypoint with
  | none => some []
  | some chunk =>
    if !chunk.is_entry then some []
    else
      match resolveImportsF m fuel entrypoint chunk with
      | none => none
      | some resources => some (sortResources resources)

/-- Model of `enum ViteMode` from `src/vite.rs`. -/
inductive ViteMode where
  | Development
  | Production
deriving DecidableEq, Repr

/-- Model of the two error kinds of `enum Error` from `src/lib.rs`:
`Io` (file missing/unreadable) and `Json` (serde parse failure). -/
inductive ViteError where
  | IOError
  | ParseError
deriving DecidableEq, Repr

/-- Model of `struct Vite` from `src/vite.rs`. -/
structure Vite where
  host : String
  manifest_source : Option String := none
  manifest_path : String := "dist/.vite/manifest.json"
  mode : ViteMode
deriving Repr

/-- Model of `Vite::to_development_html` from `src/vite.rs`: the dev-client
script tag followed by one module tag per entrypoint, joined by newlines. -/
def Vite.to_development_html (v : Vite) (entrypoints : List String) : String :=
  let host := v.host
  let lines :=
    ("<script type=\"module\" src=\"" ++ host ++ "/@vite/client\"></script>") ::
      entrypoints.map
        (fun entry => "<script type=\"module\" src=\"" ++ host ++ "/" ++ entry ++ "\"></script>")
  String.intercalate "\n" lines

/-- The manifest-acquisition step of `Vite::to_html`: deserialize
`manifest_source` if set, else read the file at `manifest_path` and
deserialize that.  The file system is a partial map from paths to contents
(`none` = missing/unreadable, giving `std::io::Error`), and JSON
deserialization is a function `parse` (`none` = malformed JSON or schema
mismatch, giving `serde_json::Error`). -/
def obtainManifest (v : Vite) (fs : String → Option String)
    (parse : String → Option Manifest) : Except ViteError Manifest :=
  match v.manifest_source with
  | some source =>
    match parse source with
    | some m => Except.ok m
    | none => Except.error ViteError.ParseError
  | none =>
    match fs v.manifest_path with
    | none => Except.error ViteError.IOError
    | some contents =>
      match parse contents with
      | some m => Except.ok m
      | none => Except.error ViteError.ParseError

/-- The `entrypoints.iter().map(resolve_resources).flatten().collect()` step
of `Vite::to_html`: per-entrypoint resolution in input order, concatenated,
with no deduplication across entrypoints. -/
def resolveAllF (m : Manifest) (fuel : Nat) : List String → Option (List Resource)
  | [] => some []
  | e :: rest =>
    match resolveResourcesF m fuel e with
    | none => none
    | some rs =>
      match resolveAllF m fuel rest with
      | none => none
      | some rest' => some (rs ++ rest')

/-- Model of `Vite::to_html` from `src/vite.rs`.  The outer `Option` is the
fuel bound on the manifest walk (`none` = the unbounded Rust recursion did
not complete within `fuel`); the `Except` is the `Result<String, Error>` the
Rust function returns. -/
def Vite.to_html (v : Vite) (fs : String → Option String)
    (parse : String → Option Manifest) (fuel : Nat) (entrypoints : List String) :
    Option (Except ViteError String) :=
  if v.mode = ViteMode.Development then
    some (Except.ok (v.to_development_html entrypoints))
  else
    match obtainManifest v fs parse with
    | Except.error e => some (Except.error e)
    | Except.ok m =>
      match resolveAllF m fuel entrypoints with
      | none => none
      | some resources =>
        some (Except.ok
          (String.intercalate "\n" ((sortResources resources).map Resource.to_html)))

/-- Model of `struct ViteReactRefresh` from `src/vite.rs`. -/
structure ViteReactRefresh where
  host : String
  mode : ViteMode
deriving Repr

/-- Model of `ViteReactRefresh::react_refresh` from `src/vite.rs`: the fixed
react-refresh preamble in development mode, the empty string otherwise.
(`\x7b\x7d` are the literal `{}` braces of the Rust format string.) -/
def ViteReactRefresh.react_refresh (v : ViteReactRefresh) : String :=
  if v.mode = ViteMode.Development then
    let host := v.host
    "<script type=\"module\">\nimport RefreshRuntime from \"" ++ host ++
      "/@react-refresh\"\nRefreshRuntime.injectIntoGlobalHook(window)\nwindow.$RefreshReg$ = () => \x7b\x7d\nwindow.$RefreshSig$ = () => (type) => type\nwindow.__vite_plugin_react_preamble_installed__ = true\n</script>"
  else
    ""

/-- The two-chunk sample manifest of the spec (`test/sample_manifest.json`). -/
def sampleManifest : Manifest :=
  [("views/foo.js",
    { file := "assets/foo-BRBmoGS9.js"
      src := some "views/foo.js"
      is_entry := true
      css := ["assets/foo-5UjPuW-k.css"]
      imports := ["_shared.js"] }),
   ("_shared.js",
    { file := "assets/shared-B7PI925R.js"
      css := ["assets/shared-ChJ_j-JJ.css"] })]

/-- A manifest whose import graph is a diamond: the entry `views/app.js`
pulls in `_b.js` and `_c.js`, both of which pull in `_d.js`, so `_d.js` is
reachable along two distinct import paths. -/
def diamondManifest : Manifest :=
  [("views/app.js",
    { file := "assets/app.js"
      is_entry := true
      imports := ["_b.js", "_c.js"] }),
   ("_b.js", { file := "assets/b.js", imports := ["_d.js"] }),
   ("_c.js", { file := "assets/c.js", imports := ["_d.js"] }),
   ("_d.js", { file := "assets/d.js" })]

/-- Spec §4.3: "the manifest JSON — from `manifest_source` if set, else by
reading the file at `manifest_path`". -/
def obtainedJson (v : Vite) (fs : String → Option String) : Option String :=
  match v.manifest_source with
  | some source => some source
  | none => fs v.manifest_path

/-- Spec §4.3, development mode: the fixed dev-server client-injection
script tag. -/
def devClientLine (host : String) : String :=
  "<script type=\"module\" src=\"" ++ host ++ "/@vite/client\"></script>"

/-- Spec §4.3, development mode: the module script tag pointing at
`{host}/{entrypoint}` verbatim. -/
def devEntryLine (host entry : String) : String :=
  "<script type=\"module\" src=\"" ++ host ++ "/" ++ entry ++ "\"></script>"

/-- Development-mode rendering as the spec words it: the client-injection
tag followed by one verbatim module tag per entrypoint in input order,
joined with a single newline. -/
def developmentRenderSpec (host : String) (entrypoints : List String) : String :=
  String.intercalate "\n" (devClientLine host :: entrypoints.map (devEntryLine host))

/-- Production-mode rendering as the spec words it: resolve each entrypoint
in input order, concatenate without deduplicating across entrypoints, sort
the concatenation globally by the `Resource` order, render each resource to
HTML and join with a single newline.  `none` signals that some resolution
did not complete within `fuel`. -/
def renderProductionSpec (m : Manifest) (fuel : Nat) (entrypoints : List String) :
    Option String :=
  (entrypoints.mapM (fun e => resolveResourcesF m fuel e)).map
    (fun ls => String.intercalate "\n" ((sortResources ls.flatten).map Resource.to_html))

/-- The react-refresh block as the spec words it: a five-line script body
(importing `RefreshRuntime` from `{host}/@react-refresh` and wiring the
three global hooks) wrapped in module script tags. -/
def reactRefreshSpecBlock (host : String) : String :=
  "<script type=\"module\">" ++ ("\n" ++
    ("import RefreshRuntime from \"" ++ (host ++ ("/@react-refresh\"" ++ ("\n" ++
      ("RefreshRuntime.injectIntoGlobalHook(window)" ++ ("\n" ++
        ("window.$RefreshReg$ = () => \x7b\x7d" ++ ("\n" ++
          ("window.$RefreshSig$ = () => (type) => type" ++ ("\n" ++
            ("window.__vite_plugin_react_preamble_installed__ = true" ++ ("\n" ++
              "</script>")))))))))))))

/-- Where a resource in a resolved list can come from: a `Stylesheet` is a
`css` entry of some chunk or the `file` of an entry chunk whose key ends in
`.css`; a `Module` is the `file` of an entry chunk whose key ends in `.js`,
`.jsx`, `.ts` or `.tsx`; a `PreloadModule` is the `file` of a non-entry
chunk. -/
def resourceProvenance (m : Manifest) : Resource → Prop
  | Resource.Stylesheet u =>
      (∃ k c, m.get k = some c ∧ u ∈ c.css) ∨
      (∃ k c, m.get k = some c ∧ c.is_entry = true ∧ strEndsWith k ".css" = true ∧
        c.file = u)
  | Resource.Module u =>
      ∃ k c, m.get k = some c ∧ c.is_entry = true ∧ jsLikeKey k = true ∧ c.file = u
  | Resource.PreloadModule u =>
      ∃ k c, m.get k = some c ∧ c.is_entry = false ∧ c.file = u

/-- Membership in the sorted output is membership in the collected list. -/
theorem mem_sortResources {r : Resource} {l : List Resource} :
    r ∈ sortResources l ↔ r ∈ l :=
  List.mem_insertionSort Resource.le

/-- C1: on the spec's two-chunk sample manifest, resolving `views/foo.js`
yields exactly the two stylesheets, the entry module and the preload module
in that order, and rendering them yields the four fixed HTML templates in
that order. -/
theorem sample_manifest_resolution :
    resolveResourcesF sampleManifest 2 "views/foo.js" =
      some [Resource.Stylesheet "assets/foo-5UjPuW-k.css",
            Resource.Stylesheet "assets/shared-ChJ_j-JJ.css",
            Resource.Module "assets/foo-BRBmoGS9.js",
            Resource.PreloadModule "assets/shared-B7PI925R.js"] ∧
    [Resource.Stylesheet "assets/foo-5UjPuW-k.css",
     Resource.Stylesheet "assets/shared-ChJ_j-JJ.css",
     Resource.Module "assets/foo-BRBmoGS9.js",
     Resource.PreloadModule "assets/shared-B7PI925R.js"].map Resource.to_html =
      ["<link rel=\"stylesheet\" href=\"assets/foo-5UjPuW-k.css\" />",
       "<link rel=\"stylesheet\" href=\"assets/shared-ChJ_j-JJ.css\" />",
       "<script type=\"module\" src=\"assets/foo-BRBmoGS9.js\"></script>",
       "<link rel=\"modulepreload\" href=\"assets/shared-B7PI925R.js\" />"] :=
  ⟨by decide, rfl⟩

/-- C2: every list returned by `resolve_resources` is sorted by the
`Resource` order: all stylesheets precede all modules, which precede all
preload modules, and within a variant the URIs are in lexicographic
order. -/
theorem resolved_list_ordering (m : Manifest) (fuel : Nat) (e : String)
    (l : List Resource) (h : resolveResourcesF m fuel e = some l) :
    l.Pairwise Resource.le := by
  unfold resolveResourcesF at h
  cases hget : m.get e with
  | none =>
    simp only [hget] at h
    injection h with h
    subst h
    exact List.Pairwise.nil
  | some chunk =>
    simp only [hget] at h
    by_cases hent : (!chunk.is_entry) = true
    · rw [if_pos hent] at h
      injection h with h
      subst h
      exact List.Pairwise.nil
    · rw [if_neg hent] at h
      cases hri : resolveImportsF m fuel e chunk with
      | none => rw [hri] at h; exact Option.noConfusion h
      | some rs =>
        rw [hri] at h
        injection h with h
        subst h
        exact List.sorted_insertionSort Resource.le rs

/-- Witness for C2 at the sample manifest. -/
theorem resolved_list_ordering_witness :
    List.Pairwise Resource.le
      [Resource.Stylesheet "assets/foo-5UjPuW-k.css",
       Resource.Stylesheet "assets/shared-ChJ_j-JJ.css",
       Resource.Module "assets/foo-BRBmoGS9.js",
       Resource.PreloadModule "assets/shared-B7PI925R.js"] :=
  resolved_list_ordering sampleManifest 2 "views/foo.js" _ (by decide)

/-- C6: in development mode the renderer never touches the manifest and
produces exactly the dev-client script tag followed by one verbatim module
tag per entrypoint, joined by newlines. -/
theorem development_render (v : Vite) (fs : String → Option String)
    (parse : String → Option Manifest) (fuel : Nat) (eps : List String)
    (h : v.mode = ViteMode.Development) :
    v.to_html fs parse fuel eps = some (Except.ok (developmentRenderSpec v.host eps)) := by
  unfold Vite.to_html
  rw [if_pos h]
  rfl

/-- Witness for C6 with the spec's host and entrypoint. -/
theorem development_render_witness :
    Vite.to_html { host := "http://localhost:5173", mode := ViteMode.Development }
        (fun _ => none) (fun _ => none) 0 ["views/foo.js"] =
      some (Except.ok (developmentRenderSpec "http://localhost:5173" ["views/foo.js"])) :=
  development_render _ (fun _ => none) (fun _ => none) 0 ["views/foo.js"] rfl

set_option maxHeartbeats 2000000 in
set_option maxRecDepth 20000 in
/-- C9: `react_refresh` is the empty string in production mode and the fixed
five-line preamble block (with the host substituted) in development mode. -/
theorem react_refresh_by_mode (host : String) :
    (ViteReactRefresh.mk host ViteMode.Production).react_refresh = "" ∧
    (ViteReactRefresh.mk host ViteMode.Development).react_refresh =
      reactRefreshSpecBlock host :=
  ⟨rfl, rfl⟩

/-- An import whose key is not in the manifest contributes nothing: the
traversal loop of `resolve_imports` behaves as if the missing key were
absent from the list. -/
theorem resolveImportList_skip (m : Manifest)
    (recurse : String → Chunk → Option (List Resource)) (i : String)
    (hmiss : m.get i = none) :
    ∀ pre post : List String,
      resolveImportList m recurse (pre ++ i :: post) =
        resolveImportList m recurse (pre ++ post) := by
  intro pre
  induction pre with
  | nil =>
    intro post
    simp only [List.nil_append, resolveImportList, hmiss]
  | cons p ps ih =>
    intro post
    simp only [List.cons_append, resolveImportList]
    cases hg : m.get p with
    | none =>
      simp only [hg]
      exact ih post
    | some c =>
      simp only [hg]
      rw [show resolveImportList m recurse (ps.append (i :: post)) =
            resolveImportList m recurse (ps.append post) from ih post]

/-- C5: resolution is lenient — an unknown entrypoint resolves to the empty
list, a non-entry chunk resolves to the empty list, and an import key
missing from the manifest is skipped silently during traversal; none of
these is an error. -/
theorem lenient_resolution (m : Manifest) (fuel : Nat) :
    (∀ e, m.get e = none → resolveResourcesF m fuel e = some []) ∧
    (∀ e c, m.get e = some c → c.is_entry = false →
      resolveResourcesF m fuel e = some []) ∧
    (∀ key chunk i pre post, m.get i = none → chunk.imports = pre ++ i :: post →
      resolveImportsF m fuel key chunk =
        resolveImportsF m fuel key { chunk with imports := pre ++ post }) := by
  refine ⟨?_, ?_, ?_⟩
  · intro e he
    unfold resolveResourcesF
    simp only [he]
  · intro e c he hent
    unfold resolveResourcesF
    simp only [he, hent]
    rfl
  · intro key chunk i pre post hmiss him
    cases fuel with
    | zero => rfl
    | succ fuel =>
      simp only [resolveImportsF, him]
      rw [resolveImportList_skip m _ i hmiss pre post]
      rfl

/-- Witness for C5: a missing entrypoint, the non-entry `_shared.js` chunk,
and a chunk with a dangling import reference. -/
theorem lenient_resolution_witness :
    resolveResourcesF sampleManifest 1 "views/bar.js" = some [] ∧
    resolveResourcesF sampleManifest 1 "_shared.js" = some [] ∧
    resolveImportsF sampleManifest 1 "k" { file := "f.js", imports := ["missing.js"] } =
      resolveImportsF sampleManifest 1 "k" { file := "f.js", imports := [] } :=
  ⟨(lenient_resolution sampleManifest 1).1 "views/bar.js" (by decide),
   (lenient_resolution sampleManifest 1).2.1 "_shared.js"
     { file := "assets/shared-B7PI925R.js", css := ["assets/shared-ChJ_j-JJ.css"] }
     (by decide) rfl,
   (lenient_resolution sampleManifest 1).2.2 "k"
     { file := "f.js", imports := ["missing.js"] } "missing.js" [] [] (by decide) rfl⟩

/-- C4 counterexample: on the diamond manifest, `_d.js` is reachable along
two import paths and its preload entry appears twice in the resolved list —
the claim that `resolve_resources` deduplicates is false. -/
theorem resolution_no_dedup_counterexample :
    resolveResourcesF diamondManifest 3 "views/app.js" =
      some [Resource.Module "assets/app.js",
            Resource.PreloadModule "assets/b.js",
            Resource.PreloadModule "assets/c.js",
            Resource.PreloadModule "assets/d.js",
            Resource.PreloadModule "assets/d.js"] ∧
    ¬ List.Nodup [Resource.Module "assets/app.js",
                  Resource.PreloadModule "assets/b.js",
                  Resource.PreloadModule "assets/c.js",
                  Resource.PreloadModule "assets/d.js",
                  Resource.PreloadModule "assets/d.js"] :=
  ⟨by decide, by decide⟩

/-- C4 amended: `resolve_resources` performs no deduplication — a chunk
reachable along two import paths contributes its resources once per path,
so on the diamond manifest the preload entry for `assets/d.js` occurs
exactly twice. -/
theorem resolution_diamond_duplicates :
    ((resolveResourcesF diamondManifest 3 "views/app.js").getD []).count
      (Resource.PreloadModule "assets/d.js") = 2 := by
  decide

/-- `resolveAllF` (the `map`/`flatten`/`collect` pipeline of `Vite::to_html`)
is per-entrypoint resolution in input order, concatenated. -/
theorem resolveAllF_eq_mapM (m : Manifest) (fuel : Nat) :
    ∀ eps : List String,
      resolveAllF m fuel eps =
        (eps.mapM (fun e => resolveResourcesF m fuel e)).map List.flatten := by
  intro eps
  induction eps with
  | nil => rfl
  | cons e rest ih =>
    simp only [resolveAllF, List.mapM_cons]
    cases hre : resolveResourcesF m fuel e with
    | none => rfl
    | some rs =>
      rw [ih]
      cases hrest : rest.mapM (fun e => resolveResourcesF m fuel e) with
      | none => rfl
      | some ls => simp [List.flatten_cons]

/-- C3: in production mode, once the manifest is obtained, the rendered
output is the per-entrypoint resolutions concatenated in input order
(without cross-entrypoint deduplication), sorted globally by the `Resource`
order, rendered to HTML and joined with a single newline. -/
theorem production_rendering (v : Vite) (fs : String → Option String)
    (parse : String → Option Manifest) (fuel : Nat) (eps : List String) (m : Manifest)
    (hmode : v.mode = ViteMode.Production)
    (hm : obtainManifest v fs parse = Except.ok m) :
    v.to_html fs parse fuel eps = (renderProductionSpec m fuel eps).map Except.ok := by
  have hdev : ¬ v.mode = ViteMode.Development := by
    rw [hmode]
    exact fun h => ViteMode.noConfusion h
  unfold Vite.to_html
  rw [if_neg hdev]
  simp only [hm]
  unfold renderProductionSpec
  rw [resolveAllF_eq_mapM]
  cases hall : eps.mapM (fun e => resolveResourcesF m fuel e) with
  | none => rfl
  | some ls => rfl

/-- Witness for C3 on the sample manifest supplied as an inline source. -/
theorem production_rendering_witness :
    Vite.to_html
        { host := "h", manifest_source := some "ok", manifest_path := "p",
          mode := ViteMode.Production }
        (fun _ => none) (fun s => if s = "ok" then some sampleManifest else none) 2
        ["views/foo.js"] =
      (renderProductionSpec sampleManifest 2 ["views/foo.js"]).map Except.ok :=
  production_rendering _ _ _ 2 ["views/foo.js"] sampleManifest rfl rfl

/-- C7: in production mode the render fails with `IOError` exactly when no
inline manifest source is set and the file at `manifest_path` is missing,
fails with `ParseError` exactly when the obtained manifest JSON does not
deserialize, and a failing render never also yields an output string. -/
theorem production_error_characterization (v : Vite) (fs : String → Option String)
    (parse : String → Option Manifest) (fuel : Nat) (eps : List String)
    (hmode : v.mode = ViteMode.Production) :
    (v.to_html fs parse fuel eps = some (Except.error ViteError.IOError) ↔
      v.manifest_source = none ∧ fs v.manifest_path = none) ∧
    (v.to_html fs parse fuel eps = some (Except.error ViteError.ParseError) ↔
      ∃ s, obtainedJson v fs = some s ∧ parse s = none) ∧
    (∀ err s, v.to_html fs parse fuel eps = some (Except.error err) →
      v.to_html fs parse fuel eps ≠ some (Except.ok s)) := by
  have hdev : ¬ v.mode = ViteMode.Development := by
    rw [hmode]
    exact fun h => ViteMode.noConfusion h
  refine ⟨?_, ?_, ?_⟩
  · unfold Vite.to_html obtainManifest
    rw [if_neg hdev]
    cases hsrc : v.manifest_source with
    | some s =>
      cases hp : parse s with
      | none => simp [hp]
      | some m =>
        cases hall : resolveAllF m fuel eps with
        | none => simp [hp, hall]
        | some rs => simp [hp, hall]
    | none =>
      cases hfs : fs v.manifest_path with
      | none => simp [hfs]
      | some contents =>
        cases hp : parse contents with
        | none => simp [hfs, hp]
        | some m =>
          cases hall : resolveAllF m fuel eps with
          | none => simp [hfs, hp, hall]
          | some rs => simp [hfs, hp, hall]
  · unfold Vite.to_html obtainManifest obtainedJson
    rw [if_neg hdev]
    cases hsrc : v.manifest_source with
    | some s =>
      cases hp : parse s with
      | none => simp [hp]
      | some m =>
        cases hall : resolveAllF m fuel eps with
        | none => simp [hp, hall]
        | some rs => simp [hp, hall]
    | none =>
      cases hfs : fs v.manifest_path with
      | none => simp [hfs]
      | some contents =>
        cases hp : parse contents with
        | none => simp [hfs, hp]
        | some m =>
          cases hall : resolveAllF m fuel eps with
          | none => simp [hfs, hp, hall]
          | some rs => simp [hfs, hp, hall]
  · intro err s h1 h2
    rw [h1] at h2
    simp at h2

/-- Witness for C7: a production configuration with no inline source and a
missing manifest file fails with `IOError`. -/
theorem production_error_characterization_witness :
    Vite.to_html
        { host := "h", manifest_source := none, manifest_path := "p",
          mode := ViteMode.Production }
        (fun _ => none) (fun _ => none) 1 [] =
      some (Except.error ViteError.IOError) :=
  ((production_error_characterization _ (fun _ => none) (fun _ => none) 1 [] rfl).1).mpr
    ⟨rfl, rfl⟩

/-- If the recursive call succeeds on every import that resolves to a chunk,
the import loop succeeds. -/
theorem resolveImportList_isSome (m : Manifest)
    (recurse : String → Chunk → Option (List Resource)) :
    ∀ imports : List String,
      (∀ i ∈ imports, ∀ c, m.get i = some c → (recurse i c).isSome) →
      (resolveImportList m recurse imports).isSome := by
  intro imports
  induction imports with
  | nil => intro _; rfl
  | cons i rest ih =>
    intro h
    simp only [resolveImportList]
    cases hg : m.get i with
    | none => exact ih fun j hj c hc => h j (List.mem_cons_of_mem _ hj) c hc
    | some c =>
      have h1 := h i (List.mem_cons_self _ _) c hg
      simp only [hg]
      cases hrc : recurse i c with
      | none => rw [hrc] at h1; simp at h1
      | some rs =>
        have h2 := ih fun j hj c' hc' => h j (List.mem_cons_of_mem _ hj) c' hc'
        cases hrest : resolveImportList m recurse rest with
        | none => rw [hrest] at h2; simp at h2
        | some rest' => rfl

/-- A rank function that strictly decreases along resolvable import edges
bounds the recursion depth of `resolve_imports`. -/
theorem resolveImportsF_isSome_of_measure (m : Manifest) (depth : String → Nat)
    (hac : ∀ k c, m.get k = some c → ∀ i ∈ c.imports, ∀ ci, m.get i = some ci →
      depth i < depth k) :
    ∀ fuel key chunk, m.get key = some chunk → depth key < fuel →
      (resolveImportsF m fuel key chunk).isSome := by
  intro fuel
  induction fuel with
  | zero => intro key chunk _ h; exact absurd h (Nat.not_lt_zero _)
  | succ fuel ih =>
    intro key chunk hkey hlt
    simp only [resolveImportsF]
    have hlist := resolveImportList_isSome m (fun i c => resolveImportsF m fuel i c)
      chunk.imports
      (fun i hi ci hci => ih i ci hci (by
        have := hac key chunk hkey i hi ci hci
        omega))
    cases hl : resolveImportList m (fun i c => resolveImportsF m fuel i c) chunk.imports with
    | none => rw [hl] at hlist; simp at hlist
    | some imported => rfl

/-- C8: on a manifest whose resolvable import relation is acyclic (witnessed,
as for any finite acyclic relation, by a rank function that strictly
decreases along import edges), `resolve_resources` terminates for every
entrypoint: some finite recursion depth suffices. -/
theorem acyclic_resolution_terminates (m : Manifest) (depth : String → Nat)
    (hac : ∀ k c, m.get k = some c → ∀ i ∈ c.imports, ∀ ci, m.get i = some ci →
      depth i < depth k) (e : String) :
    ∃ fuel, (resolveResourcesF m fuel e).isSome := by
  refine ⟨depth e + 1, ?_⟩
  unfold resolveResourcesF
  cases hget : m.get e with
  | none => rfl
  | some chunk =>
    dsimp only
    by_cases hent : (!chunk.is_entry) = true
    · rw [if_pos hent]; rfl
    · rw [if_neg hent]
      have h := resolveImportsF_isSome_of_measure m depth hac (depth e + 1) e chunk hget
        (by omega)
      cases hri : resolveImportsF m (depth e + 1) e chunk with
      | none => rw [hri] at h; simp at h
      | some rs => rfl

/-- Witness for C8: the sample manifest is acyclic, ranked by
`views/foo.js ↦ 1`, everything else `↦ 0`. -/
theorem acyclic_resolution_terminates_witness :
    ∃ fuel, (resolveResourcesF sampleManifest fuel "views/foo.js").isSome :=
  acyclic_resolution_terminates sampleManifest
    (fun k => if k = "views/foo.js" then 1 else 0)
    (by
      intro k c hk i hi ci hci
      simp only [sampleManifest, Manifest.get] at hk
      by_cases h1 : ("views/foo.js" : String) = k
      · rw [if_pos h1] at hk
        injection hk with hk
        subst hk
        subst h1
        simp only [List.mem_singleton] at hi
        subst hi
        decide
      · rw [if_neg h1] at hk
        by_cases h2 : ("_shared.js" : String) = k
        · rw [if_pos h2] at hk
          injection hk with hk
          subst hk
          simp at hi
        · rw [if_neg h2] at hk
          exact Option.noConfusion hk)
    "views/foo.js"

/-- The chunk's own contribution obeys the provenance discipline. -/
theorem selfResources_provenance (m : Manifest) (key : String) (chunk : Chunk)
    (hkey : m.get key = some chunk) :
    ∀ r ∈ selfResources key chunk, resourceProvenance m r := by
  intro r hr
  unfold selfResources at hr
  by_cases hent : (!chunk.is_entry) = true
  · rw [if_pos hent] at hr
    simp only [List.mem_singleton] at hr
    subst hr
    exact ⟨key, chunk, hkey, by simpa using hent, rfl⟩
  · have hent' : chunk.is_entry = true := by
      cases hcase : chunk.is_entry
      · rw [hcase] at hent; simp at hent
      · rfl
    rw [if_neg hent] at hr
    by_cases hcss : strEndsWith key ".css" = true
    · rw [if_pos hcss] at hr
      simp only [List.mem_singleton] at hr
      subst hr
      exact Or.inr ⟨key, chunk, hkey, hent', hcss, rfl⟩
    · rw [if_neg hcss] at hr
      by_cases hjs : jsLikeKey key = true
      · rw [if_pos hjs] at hr
        simp only [List.mem_singleton] at hr
        subst hr
        exact ⟨key, chunk, hkey, hent', hjs, rfl⟩
      · rw [if_neg hjs] at hr
        simp at hr

/-- The chunk's `css` contribution obeys the provenance discipline. -/
theorem css_provenance (m : Manifest) (key : String) (chunk : Chunk)
    (hkey : m.get key = some chunk) :
    ∀ r ∈ chunk.css.map Resource.Stylesheet, resourceProvenance m r := by
  intro r hr
  rcases List.mem_map.mp hr with ⟨u, hu, hru⟩
  subst hru
  exact Or.inl ⟨key, chunk, hkey, hu⟩

/-- The import loop preserves the provenance discipline. -/
theorem resolveImportList_provenance (m : Manifest)
    (recurse : String → Chunk → Option (List Resource))
    (hrec : ∀ i c l, m.get i = some c → recurse i c = some l →
      ∀ r ∈ l, resourceProvenance m r) :
    ∀ imports l, resolveImportList m recurse imports = some l →
      ∀ r ∈ l, resourceProvenance m r := by
  intro imports
  induction imports with
  | nil =>
    intro l h r hr
    injection h with h
    subst h
    simp at hr
  | cons i rest ih =>
    intro l h r hr
    simp only [resolveImportList] at h
    cases hg : m.get i with
    | none =>
      rw [hg] at h
      exact ih l h r hr
    | some c =>
      simp only [hg] at h
      cases hrc : recurse i c with
      | none => rw [hrc] at h; exact Option.noConfusion h
      | some rs =>
        simp only [hrc] at h
        cases hrest : resolveImportList m recurse rest with
        | none => rw [hrest] at h; exact Option.noConfusion h
        | some rest' =>
          simp only [hrest] at h
          injection h with h
          subst h
          rcases List.mem_append.mp hr with h1 | h2
          · exact hrec i c rs hg hrc r h1
          · exact ih rest' hrest r h2

/-- Every resource appended by `resolve_imports` on a looked-up chunk obeys
the provenance discipline. -/
theorem resolveImportsF_provenance (m : Manifest) :
    ∀ fuel key chunk l, m.get key = some chunk →
      resolveImportsF m fuel key chunk = some l →
      ∀ r ∈ l, resourceProvenance m r := by
  intro fuel
  induction fuel with
  | zero =>
    intro key chunk l _ h
    exact Option.noConfusion h
  | succ fuel ih =>
    intro key chunk l hkey h
    simp only [resolveImportsF] at h
    cases hl : resolveImportList m (fun i c => resolveImportsF m fuel i c) chunk.imports with
    | none => rw [hl] at h; exact Option.noConfusion h
    | some imported =>
      simp only [hl] at h
      injection h with h
      subst h
      intro r hr
      rcases List.mem_append.mp hr with h12 | h3
      · rcases List.mem_append.mp h12 with h1 | h2
        · exact css_provenance m key chunk hkey r h1
        · exact resolveImportList_provenance m _
            (fun i c l' hg hrc => ih i c l' hg hrc) chunk.imports imported hl r h2
      · exact selfResources_provenance m key chunk hkey r h3

/-- C10: in any resolved list, every `Module` carries the `file` of an entry
chunk whose key ends in `.js`/`.jsx`/`.ts`/`.tsx`, every `PreloadModule`
carries the `file` of a non-entry chunk, and every `Stylesheet` is either a
`css` entry of some chunk or the `file` of an entry chunk whose key ends in
`.css` — so a non-entry chunk never contributes a `Module` or a standalone
`Stylesheet` for its own file, and an entry chunk with an unrecognized
extension contributes nothing for its own file. -/
theorem resolved_resource_provenance (m : Manifest) (fuel : Nat) (e : String)
    (l : List Resource) (h : resolveResourcesF m fuel e = some l) :
    ∀ r ∈ l, resourceProvenance m r := by
  unfold resolveResourcesF at h
  cases hget : m.get e with
  | none =>
    simp only [hget] at h
    injection h with h
    subst h
    intro r hr
    simp at hr
  | some chunk =>
    simp only [hget] at h
    by_cases hent : (!chunk.is_entry) = true
    · rw [if_pos hent] at h
      injection h with h
      subst h
      intro r hr
      simp at hr
    · rw [if_neg hent] at h
      cases hri : resolveImportsF m fuel e chunk with
      | none => rw [hri] at h; exact Option.noConfusion h
      | some rs =>
        rw [hri] at h
        injection h with h
        subst h
        intro r hr
        exact resolveImportsF_provenance m fuel e chunk rs hget hri r
          (mem_sortResources.mp hr)

/-- Witness for C10: the module resolved for the sample entrypoint comes
from the entry chunk `views/foo.js`. -/
theorem resolved_resource_provenance_witness :
    resourceProvenance sampleManifest (Resource.Module "assets/foo-BRBmoGS9.js") :=
  resolved_resource_provenance sampleManifest 2 "views/foo.js"
    [Resource.Stylesheet "assets/foo-5UjPuW-k.css",
     Resource.Stylesheet "assets/shared-ChJ_j-JJ.css",
     Resource.Module "assets/foo-BRBmoGS9.js",
     Resource.PreloadModule "assets/shared-B7PI925R.js"] (by decide)
    (Resource.Module "assets/foo-BRBmoGS9.js") (by decide)

/-- Witness for C9 at the default host. -/
theorem react_refresh_by_mode_witness :
    (ViteReactRefresh.mk "http://localhost:5173" ViteMode.Production).react_refresh = "" ∧
    (ViteReactRefresh.mk "http://localhost:5173" ViteMode.Development).react_refresh =
      reactRefreshSpecBlock "http://localhost:5173" :=
  react_refresh_by_mode "http://localhost:5173"
